import Mathlib

/-!
Verification development for the column-generation master problem in
`src/planners/master_problem.py` (class `MasterProblem`).

The Python code is shallowly embedded over exact rationals (`ℚ` stands for
the Python floats).  The external pieces are treated as follows:

* the cvxpy solver backend is opaque: a `SolverOutput` records what the
  backend hands back after `lp.solve()` (per-variable values, per-constraint
  duals, `lp.value`, `lp.status`); theorems about solved instances take
  hypotheses stating that the output is a feasible/exact solution;
* the fairness-penalty library `util.fairness_penalties` is repository code
  that is not part of the visible sources, so its three functions are
  modelled from the spec (population variance, its gradient, and the
  solver-expression variant, all sharing one mathematical definition);
* Python exceptions are modelled with `Except PyError`.
-/

namespace AlwaysSafe

/-- A column: per-period resource `claims` and per-period `reward`
(`column["claims"]`, `column["reward"]` in the source). -/
structure Column where
  claims : List ℚ
  reward : List ℚ
deriving Repr, DecidableEq, Inhabited

/-- The agent interface the master problem consumes: `horizon`,
`fixed_cost_vector` and the current column set returned by `get_columns()`. -/
structure Agent where
  horizon : ℕ
  fixed_cost_vector : List ℚ
  columns : List Column
deriving Repr, DecidableEq, Inhabited

/-- The persistent configuration of a `MasterProblem` instance, as stored by
`__init__`: the agents, `horizon = agents[0].horizon`,
`num_agents = len(agents)`, and the four configuration fields. -/
structure MasterProblem where
  agents : List Agent
  horizon : ℕ
  num_agents : ℕ
  resource_capacity : ℚ
  langrangian_weight : ℚ
  fairness_type : String
  fairness_scope : String
deriving Repr, DecidableEq, Inhabited

/-- Python exceptions that the embedded code can raise. -/
inductive PyError where
  | valueError (msg : String)
  | notImplementedError (msg : String)
  | typeError
  | indexError
  | unboundLocalError
deriving Repr, DecidableEq

/-- `MasterProblem.__init__`: reads `agents[0].horizon`, which raises
`IndexError` on an empty agent list; otherwise stores the configuration. -/
def mkMasterProblem (agents : List Agent) (resource_capacity : ℚ)
    (langrangian_weight : ℚ) (fairness_type fairness_scope : String) :
    Except PyError MasterProblem :=
  match agents with
  | [] => .error .indexError
  | a :: rest =>
      .ok { agents := a :: rest
            horizon := a.horizon
            num_agents := (a :: rest).length
            resource_capacity := resource_capacity
            langrangian_weight := langrangian_weight
            fairness_type := fairness_type
            fairness_scope := fairness_scope }

/-- The mutable per-solve state: `self.decision_vars` (here: the solved
values of the variables, `none` for an unset `var.value`) and
`self.resource_constraints` (here: the dual values the solver attached to
them, `none` when unavailable).  `__init__` sets both to `[]`. -/
structure MPState where
  decision_vars : List (List (Option ℚ))
  resource_constraint_duals : List (Option ℚ)
deriving Repr, DecidableEq

/-- The state right after `__init__`: `self.decision_vars = []`,
`self.resource_constraints = []`. -/
def initState : MPState := { decision_vars := [], resource_constraint_duals := [] }

/-- What the opaque cvxpy backend reports after `lp.solve()`: the value the
solver assigned to the decision variable of agent `a`, column `c` (`none`
when the variable value is unset, e.g. on an infeasible problem), the dual
value of the period-`t` resource constraint, `lp.value`, and `lp.status`. -/
structure SolverOutput where
  value : ℕ → ℕ → Option ℚ
  dual : ℕ → Option ℚ
  objValue : Option ℚ
  status : String

/-! ### Fairness-penalty primitives (external library) -/

/-- Modelled from the spec: `variance_penalty_numpy(values)` from
`util.fairness_penalties` (not among the visible sources) "takes a sequence
of floats, returns the scalar variance value" — population variance of the
list. -/
def variance_penalty_numpy (values : List ℚ) : ℚ :=
  let n : ℚ := values.length
  let mean := values.sum / n
  (values.map (fun v => (v - mean) ^ 2)).sum / n

/-- Modelled from the spec: `variance_penalty(values)` from
`util.fairness_penalties` "takes a sequence of solver-compatible linear
expressions, returns one expression"; per the spec it "must use the same
mathematical definition of variance" as the numeric form, so its evaluation
at a point is the same population variance. -/
def variance_penalty (values : List ℚ) : ℚ :=
  let n : ℚ := values.length
  let mean := values.sum / n
  (values.map (fun v => (v - mean) ^ 2)).sum / n

/-- Modelled from the spec: `variance_penalty_gradient(values)` from
`util.fairness_penalties` "takes a sequence of floats, returns an array of
per-entry partial derivatives of the same variance definition":
`d/dv_i [ (1/n) * sum_j (v_j - mean)^2 ] = 2 * (v_i - mean) / n`. -/
def variance_penalty_gradient (values : List ℚ) : List ℚ :=
  let n : ℚ := values.length
  let mean := values.sum / n
  values.map (fun v => 2 * (v - mean) / n)

/-! ### Expression evaluation helpers

The solver-side expressions `expr += decision_vars[a][c] * column["claims"][t]`
are affine in the variables; they are embedded as their evaluation at a
variable assignment.  Post-solve code reads `decision_vars[a][c].value`,
which can be unset (`None`): multiplying it raises `TypeError`, and an
out-of-range index raises `IndexError`.  Loops `for c, column in
enumerate(columns)` become structural recursion with an explicit counter. -/

/-- `sum(column["reward"]) - sum(fixed_cost_vector * column["claims"])`
(lines 86–88): the net value of one column for one agent. -/
def netValue (ag : Agent) (col : Column) : ℚ :=
  col.reward.sum - ((ag.fixed_cost_vector.zip col.claims).map (fun q => q.1 * q.2)).sum

/-- Pure accumulation `expr += v[c] * column["claims"][t]` over
`enumerate(columns)` starting at counter `c` with accumulator `acc`. -/
def expectedClaimAux (v : ℕ → ℚ) (t : ℕ) : List Column → ℕ → ℚ → ℚ
  | [], _, acc => acc
  | col :: rest, c, acc => expectedClaimAux v t rest (c + 1) (acc + v c * col.claims.getD t 0)

/-- The expected claim of one agent at period `t` under per-column weights
`v`: `sum_c v c * claims[t]`. -/
def expectedClaimAt (cols : List Column) (v : ℕ → ℚ) (t : ℕ) : ℚ :=
  expectedClaimAux v t cols 0 0

/-- Pure accumulation `expr += v[c] * sum(column["claims"])` over
`enumerate(columns)` (cumulative scope). -/
def expectedCumAux (v : ℕ → ℚ) : List Column → ℕ → ℚ → ℚ
  | [], _, acc => acc
  | col :: rest, c, acc => expectedCumAux v rest (c + 1) (acc + v c * col.claims.sum)

/-- The cumulative (horizon-summed) expected claim of one agent under
per-column weights `v`. -/
def expectedCumClaim (cols : List Column) (v : ℕ → ℚ) : ℚ :=
  expectedCumAux v cols 0 0

/-- Post-solve accumulation `expr += decision_vars[a][c].value *
column["claims"][t]` over `enumerate(columns)`: looking up an out-of-range
variable raises `IndexError`, an unset value raises `TypeError`. -/
def exprClaimsAux (dv : List (Option ℚ)) (t : ℕ) :
    List Column → ℕ → ℚ → Except PyError ℚ
  | [], _, acc => .ok acc
  | col :: rest, c, acc =>
      if c < dv.length then
        match dv.getD c none with
        | none => .error .typeError
        | some x => exprClaimsAux dv t rest (c + 1) (acc + x * col.claims.getD t 0)
      else .error .indexError

/-- The post-solve expected claim of one agent at period `t`, read from the
stored variable values `dv`. -/
def exprClaimsM (dv : List (Option ℚ)) (cols : List Column) (t : ℕ) :
    Except PyError ℚ :=
  exprClaimsAux dv t cols 0 0

/-- Post-solve accumulation `expr += decision_vars[a][c].value *
sum(column["claims"])` (cumulative scope). -/
def exprCumAux (dv : List (Option ℚ)) :
    List Column → ℕ → ℚ → Except PyError ℚ
  | [], _, acc => .ok acc
  | col :: rest, c, acc =>
      if c < dv.length then
        match dv.getD c none with
        | none => .error .typeError
        | some x => exprCumAux dv rest (c + 1) (acc + x * col.claims.sum)
      else .error .indexError

/-- The post-solve cumulative expected claim of one agent, read from the
stored variable values `dv`. -/
def exprCumM (dv : List (Option ℚ)) (cols : List Column) : Except PyError ℚ :=
  exprCumAux dv cols 0 0

/-! ### The operations of `MasterProblem` -/

/-- The per-agent per-period expected-claim expression list built at lines
56–62 (and again post-solve at lines 112–118): for `a in
range(self.num_agents)`, the expected claim of `self.agents[a]` at `t`,
evaluated at the assignment `v`. -/
def expectedClaimsVec (mp : MasterProblem) (v : ℕ → ℕ → ℚ) (t : ℕ) : List ℚ :=
  (List.range mp.num_agents).map (fun a =>
    expectedClaimAt ((mp.agents.getD a default).columns) (v a) t)

/-- The per-agent cumulative expected-claim expression list built at lines
70–75 (and post-solve at lines 134–139), evaluated at assignment `v`. -/
def expectedCumVec (mp : MasterProblem) (v : ℕ → ℕ → ℚ) : List ℚ :=
  (List.range mp.num_agents).map (fun a =>
    expectedCumClaim ((mp.agents.getD a default).columns) (v a))

/-- Lines 84–89: `total_expected_reward += decision_vars[a][c] * net_value`,
accumulated over `enumerate(agent.get_columns())`. -/
def netRewardAux (ag : Agent) (v : ℕ → ℚ) : List Column → ℕ → ℚ → ℚ
  | [], _, acc => acc
  | col :: rest, c, acc => netRewardAux ag v rest (c + 1) (acc + v c * netValue ag col)

/-- The total expected net reward term of the objective (lines 84–89),
evaluated at assignment `v`: summed over all agents and their columns. -/
def netRewardSum (mp : MasterProblem) (v : ℕ → ℕ → ℚ) : ℚ :=
  (mp.agents.enum.map (fun pa => netRewardAux pa.2 (v pa.1) pa.2.columns 0 0)).sum

/-- A list comprehension / loop over indices whose body can raise: builds
the results in order, propagating the first exception. -/
def exceptMap {α : Type} (f : ℕ → Except PyError α) : List ℕ → Except PyError (List α)
  | [] => .ok []
  | x :: xs => do
    let y ← f x
    let ys ← exceptMap f xs
    pure (y :: ys)

/-- The timestep-scope penalty loop of `solve()` (lines 56–66): for each
period, subtract `langrangian_weight * variance_penalty(expected_claims_t)`
from the accumulator; a `fairness_type` other than `"variance"` leaves the
local `fairness_penalty` unbound, so line 66 raises `UnboundLocalError`. -/
def penaltyLoop (mp : MasterProblem) (v : ℕ → ℕ → ℚ) :
    List ℕ → ℚ → Except PyError ℚ
  | [], acc => .ok acc
  | t :: ts, acc =>
      if mp.fairness_type = "variance" then
        penaltyLoop mp v ts
          (acc - mp.langrangian_weight * variance_penalty (expectedClaimsVec mp v t))
      else .error .unboundLocalError

/-- The objective expression `solve()` assembles (lines 50–91), evaluated at
an assignment `v` of the decision variables.  Mirrors the source order:
start from `0`, subtract the weighted fairness penalty (only when
`langrangian_weight > 0`; unknown scope raises `ValueError`; a
`fairness_type` other than `"variance"` raises `UnboundLocalError` at the
first use of the unbound local — except in the timestep branch with
`horizon = 0`, where the loop body never runs), then add the net-reward
term. -/
def solveObjective (mp : MasterProblem) (v : ℕ → ℕ → ℚ) : Except PyError ℚ := do
  let base ←
    if mp.langrangian_weight > 0 then
      if mp.fairness_scope = "timestep" then
        penaltyLoop mp v (List.range mp.horizon) 0
      else if mp.fairness_scope = "cumulative" then
        if mp.fairness_type = "variance" then
          pure (0 - mp.langrangian_weight * variance_penalty (expectedCumVec mp v))
        else .error .unboundLocalError
      else .error (.valueError "Unknown fairness_scope option")
    else pure (0 : ℚ)
  pure (base + netRewardSum mp v)

/-- Lines 113–118 / 180–186: the cross-agent list of post-solve expected
claims at period `t`, read from the stored variable values. -/
def claimsVecM (mp : MasterProblem) (st : MPState) (t : ℕ) :
    Except PyError (List ℚ) :=
  exceptMap (fun a =>
    exprClaimsM (st.decision_vars.getD a []) ((mp.agents.getD a default).columns) t)
    (List.range mp.num_agents)

/-- Lines 134–139 / 192–198: the cross-agent list of post-solve cumulative
expected claims, read from the stored variable values. -/
def cumVecM (mp : MasterProblem) (st : MPState) :
    Except PyError (List ℚ) :=
  exceptMap (fun a =>
    exprCumM (st.decision_vars.getD a []) ((mp.agents.getD a default).columns))
    (List.range mp.num_agents)

/-- `MasterProblem.compute_fairness_gradients` (lines 106–154).  Timestep
scope: per period, build the cross-agent claims, apply the gradient
primitive (any other `fairness_type` raises `NotImplementedError`), then
reassemble one length-`horizon` array per agent as
`[gradients[t][a] for t in range(horizon)]`.  Cumulative scope: one gradient
over the cumulative claims, broadcast as `[grad_cumulative[a]] * horizon`.
Any other scope raises `ValueError`. -/
def compute_fairness_gradients (mp : MasterProblem) (st : MPState) :
    Except PyError (List (List ℚ)) :=
  if mp.fairness_scope = "timestep" then do
    let gradients ← exceptMap (fun t => do
      let expected_claims_t ← claimsVecM mp st t
      if mp.fairness_type = "variance" then
        pure (variance_penalty_gradient expected_claims_t)
      else
        (.error (.notImplementedError "Only variance fairness implemented in gradient") :
          Except PyError (List ℚ))) (List.range mp.horizon)
    pure ((List.range mp.num_agents).map (fun a =>
      (List.range mp.horizon).map (fun t => (gradients.getD t []).getD a 0)))
  else if mp.fairness_scope = "cumulative" then do
    let expected_cumulative_claims ← cumVecM mp st
    if mp.fairness_type = "variance" then
      pure ((List.range mp.num_agents).map (fun a =>
        List.replicate mp.horizon ((variance_penalty_gradient expected_cumulative_claims).getD a 0)))
    else
      .error (.notImplementedError "Only variance fairness implemented in gradient")
  else .error (.valueError "Unknown fairness_scope option")

/-- `MasterProblem.get_dual_prices` (lines 156–160): per stored resource
constraint, its dual value, with `0.0` substituted when the dual is
unavailable. -/
def get_dual_prices (st : MPState) : List ℚ :=
  st.resource_constraint_duals.map (fun d => d.getD 0)

/-- `MasterProblem.get_decision_distribution` (lines 162–174): per agent,
the solved weights (`0.0` for unset values); if they sum to zero, a uniform
vector `np.ones_like(weights) / len(weights)`, otherwise `weights` divided
by their sum. -/
def get_decision_distribution (st : MPState) : List (List ℚ) :=
  st.decision_vars.map (fun a_vars =>
    let weights := a_vars.map (fun v => v.getD 0)
    if weights.sum = 0 then
      weights.map (fun _ => 1 / (weights.length : ℚ))
    else
      weights.map (fun w => w / weights.sum))

/-- `MasterProblem.compute_realized_fairness_penalty` (lines 176–202).
Timestep scope: sum over periods of `variance_penalty_numpy` on that
period's cross-agent claims; cumulative scope: `variance_penalty_numpy` on
the cumulative claims; any other scope raises `ValueError`.  (The source
performs no `fairness_type` check here.) -/
def compute_realized_fairness_penalty (mp : MasterProblem) (st : MPState) :
    Except PyError ℚ :=
  if mp.fairness_scope = "timestep" then do
    let penalties ← exceptMap (fun t => do
      let claims_t ← claimsVecM mp st t
      pure (variance_penalty_numpy claims_t)) (List.range mp.horizon)
    pure penalties.sum
  else if mp.fairness_scope = "cumulative" then do
    let claims ← cumVecM mp st
    pure (variance_penalty_numpy claims)
  else .error (.valueError "Unknown fairness_scope")

/-- The instance state right after `lp.solve()` inside `solve()`: one stored
value per (agent, column) variable (lines 25–33, values assigned by the
solver), and one resource constraint per period `t < horizon`
(lines 39–48), carrying the solver's dual. -/
def solveState (mp : MasterProblem) (out : SolverOutput) : MPState :=
  { decision_vars :=
      mp.agents.enum.map (fun pa => pa.2.columns.enum.map (fun pc => out.value pa.1 pc.1))
    resource_constraint_duals := (List.range mp.horizon).map out.dual }

/-- `MasterProblem.solve` (lines 22–104), with the opaque solver's answer
passed in as `out`.  The objective assembly (lines 50–91) can raise before
the solver runs; its error cases do not depend on the variable values, and
we evaluate the symbolic expression at the solver's values.  After solving,
`compute_fairness_gradients` (line 99, result discarded) and
`compute_realized_fairness_penalty` (line 101) run on the solved values, and
the returned triple is `(self.lp.value, get_decision_distribution(),
langrangian_weight * realized_penalty)`. -/
def MasterProblem.solve (mp : MasterProblem) (out : SolverOutput) :
    Except PyError (Option ℚ × List (List ℚ) × ℚ) := do
  let st := solveState mp out
  let _ ← solveObjective mp (fun a c => (out.value a c).getD 0)
  let _ ← compute_fairness_gradients mp st
  let pen ← compute_realized_fairness_penalty mp st
  pure (out.objValue, get_decision_distribution st, mp.langrangian_weight * pen)

/-! ### The feasible region of the assembled LP -/

/-- The total expected claim expression of the period-`t` resource
constraint (lines 40–45), evaluated at assignment `v`: summed over all
agents and their columns. -/
def expectedTotalClaimsAt (mp : MasterProblem) (v : ℕ → ℕ → ℚ) (t : ℕ) : ℚ :=
  (mp.agents.enum.map (fun pa => expectedClaimAt pa.2.columns (v pa.1) t)).sum

/-- The constraints `solve()` hands to the solver (lines 27–48): variables
nonnegative (`cv.Variable(nonneg=True)`), each agent's variables summing to
one, and each period's expected total claims bounded by
`resource_capacity`. -/
def Feasible (mp : MasterProblem) (v : ℕ → ℕ → ℚ) : Prop :=
  (∀ a ∈ List.range mp.num_agents,
    ∀ c ∈ List.range ((mp.agents.getD a default).columns.length), 0 ≤ v a c) ∧
  (∀ a ∈ List.range mp.num_agents,
    ((List.range ((mp.agents.getD a default).columns.length)).map (v a)).sum = 1) ∧
  (∀ t ∈ List.range mp.horizon, expectedTotalClaimsAt mp v t ≤ mp.resource_capacity)

instance (mp : MasterProblem) (v : ℕ → ℕ → ℚ) : Decidable (Feasible mp v) := by
  unfold Feasible; infer_instance

/-! ### Spec-side formulations

These follow the wording of the specification (§4.1 step 5–6), to be
compared with the source-derived `solveObjective`. -/

/-- Spec §4.1 step 5, as worded: "sum over all (agent, column) pairs of
decision_variable × (sum(reward) − sum(fixed_cost_vector * claims))". -/
def netRewardSpec (mp : MasterProblem) (v : ℕ → ℕ → ℚ) : ℚ :=
  (mp.agents.enum.map (fun pa =>
    (pa.2.columns.enum.map (fun pc =>
      v pa.1 pc.1 *
        (pc.2.reward.sum -
          ((pa.2.fixed_cost_vector.zip pc.2.claims).map (fun q => q.1 * q.2)).sum))).sum)).sum

/-- The fairness penalty as a single scalar, per spec §4.2: timestep scope
sums one variance term per period; cumulative scope is one variance term
over the cumulative claims. -/
def fairnessPenaltySpec (mp : MasterProblem) (v : ℕ → ℕ → ℚ) : ℚ :=
  if mp.fairness_scope = "timestep" then
    ((List.range mp.horizon).map (fun t => variance_penalty (expectedClaimsVec mp v t))).sum
  else
    variance_penalty (expectedCumVec mp v)

/-- Spec §4.1 step 6, as worded: "maximize `total_expected_reward −
langrangian_weight × fairness_penalty` (the penalty term is included only if
`langrangian_weight > 0`)". -/
def objectiveSpec (mp : MasterProblem) (v : ℕ → ℕ → ℚ) : ℚ :=
  netRewardSpec mp v -
    (if mp.langrangian_weight > 0 then
      mp.langrangian_weight * fairnessPenaltySpec mp v
    else 0)

/-- The decision-variable values stored by a solve whose solver set every
variable: one `some` per (agent, column). -/
def solvedVars (mp : MasterProblem) (w : ℕ → ℕ → ℚ) : List (List (Option ℚ)) :=
  mp.agents.enum.map (fun pa => pa.2.columns.enum.map (fun pc => some (w pa.1 pc.1)))

/-! ### The concrete test scenarios of spec §8 -/

/-- An agent with one column, `claims = [1]`, `reward = [1]`, zero fixed
cost, over horizon 1 (spec §8, Scenarios A and B). -/
def agentOne : Agent :=
  { horizon := 1, fixed_cost_vector := [0], columns := [{ claims := [1], reward := [1] }] }

/-- An agent with one column, `claims = [0]`, `reward = [1]`, zero fixed
cost, over horizon 1 (the second agent of Scenario B). -/
def agentZero : Agent :=
  { horizon := 1, fixed_cost_vector := [0], columns := [{ claims := [0], reward := [1] }] }

/-- Scenario A (spec §8): 2 agents, horizon 1, capacity 1,
`langrangian_weight = 0`, each agent one column with `claims=[1]`,
`reward=[1]`, zero fixed cost. -/
def scenarioA : MasterProblem :=
  { agents := [agentOne, agentOne], horizon := 1, num_agents := 2,
    resource_capacity := 1, langrangian_weight := 0,
    fairness_type := "variance", fairness_scope := "timestep" }

/-- Scenario A with the capacity raised to 2 (the smallest change making the
LP feasible). -/
def scenarioA2 : MasterProblem :=
  { agents := [agentOne, agentOne], horizon := 1, num_agents := 2,
    resource_capacity := 2, langrangian_weight := 0,
    fairness_type := "variance", fairness_scope := "timestep" }

/-- Scenario B (spec §8): as Scenario A but `langrangian_weight = 5`, one
agent's column `claims = [1]`, the other's `claims = [0]`. -/
def scenarioB : MasterProblem :=
  { agents := [agentOne, agentZero], horizon := 1, num_agents := 2,
    resource_capacity := 1, langrangian_weight := 5,
    fairness_type := "variance", fairness_scope := "timestep" }

/-- The solver output for an infeasible problem: every variable value and
every dual unset, `lp.value` unset, `lp.status = "infeasible"`. -/
def infeasibleOut : SolverOutput :=
  { value := fun _ _ => none, dual := fun _ => none, objValue := none,
    status := "infeasible" }

/-- Scenario B reconfigured with the unimplemented `fairness_type = "gini"`. -/
def scenarioGini : MasterProblem := { scenarioB with fairness_type := "gini" }

/-- A solver output that sets every variable value to `1` and exposes no
duals or objective value. -/
def outOnes : SolverOutput :=
  { value := fun _ _ => some 1, dual := fun _ => none, objValue := none,
    status := "optimal" }

/-- The exact optimal solver output for Scenario B: both weights 1,
objective value `3/4 = 2 − 5 × variance([1,0])`. -/
def outB : SolverOutput :=
  { value := fun _ _ => some 1, dual := fun _ => some (1/2), objValue := some (3/4),
    status := "optimal" }

/-- The exact optimal solver output for the capacity-2 Scenario A. -/
def outA2 : SolverOutput :=
  { value := fun _ _ => some 1, dual := fun _ => none, objValue := some 2,
    status := "optimal" }

/-! ### Modified-horizon instances (for the horizon-provenance claim) -/

/-- The agent list with every agent's `horizon` except the first replaced
through `f` (columns and cost vectors untouched). -/
def setTailHorizons (l : List Agent) (f : ℕ → ℕ) : List Agent :=
  l.enum.map (fun p => if p.1 = 0 then p.2 else { p.2 with horizon := f p.1 })

/-- A `MasterProblem` configuration whose non-first agents carry arbitrary
`horizon` values; all stored configuration (including the `horizon` snapshot
taken from the first agent) is unchanged. -/
def withTailHorizons (mp : MasterProblem) (f : ℕ → ℕ) : MasterProblem :=
  { agents := setTailHorizons mp.agents f
    horizon := mp.horizon
    num_agents := mp.num_agents
    resource_capacity := mp.resource_capacity
    langrangian_weight := mp.langrangian_weight
    fairness_type := mp.fairness_type
    fairness_scope := mp.fairness_scope }

/-- Reduction of `Except` bind on a success value. -/
@[simp] theorem ok_bind {α β : Type} (a : α) (f : α → Except PyError β) :
    (Except.ok a >>= f) = f a := rfl

/-- Reduction of `Except` bind on an error value. -/
@[simp] theorem error_bind {α β : Type} (e : PyError) (f : α → Except PyError β) :
    ((Except.error e : Except PyError α) >>= f) = .error e := rfl

/-- Indexing into a map over an enumerated list. -/
theorem getD_enum_map {α β : Type} (l : List α) (f : ℕ → α → β) (i : ℕ)
    (hi : i < l.length) (d : β) (dα : α) :
    ((l.enum.map (fun p => f p.1 p.2)).getD i d) = f i (l.getD i dα) := by
  rw [List.getD_eq_getElem?_getD, List.getElem?_map, List.getElem?_enum,
    List.getElem?_eq_getElem hi, List.getD_eq_getElem?_getD,
    List.getElem?_eq_getElem hi]
  rfl

/-- Indexing into a map over `List.range`. -/
theorem getD_range_map {β : Type} (f : ℕ → β) {t n : ℕ} (hn : t < n) (d : β) :
    ((List.range n).map f).getD t d = f t := by
  rw [List.getD_eq_getElem?_getD, List.getElem?_map, List.getElem?_range hn]
  rfl

/-- When the stored variable values line up with the column list and are all
set, the post-solve claim expression evaluates without error to the pure
expected claim. -/
theorem exprClaimsAux_aligned (w : ℕ → ℚ) (t : ℕ) (dv : List (Option ℚ))
    (hval : ∀ i, i < dv.length → dv.getD i none = some (w i)) :
    ∀ (rest : List Column) (c : ℕ) (acc : ℚ), dv.length = c + rest.length →
      exprClaimsAux dv t rest c acc = .ok (expectedClaimAux w t rest c acc)
  | [], c, acc, _ => rfl
  | col :: rest, c, acc, hlen => by
      simp only [List.length_cons] at hlen
      have hc : c < dv.length := by omega
      rw [exprClaimsAux, if_pos hc, hval c hc, expectedClaimAux]
      exact exprClaimsAux_aligned w t dv hval rest (c + 1) _ (by omega)

/-- `exprClaimsM` on aligned, fully set values is the pure expected claim. -/
theorem exprClaimsM_aligned (w : ℕ → ℚ) (t : ℕ) (dv : List (Option ℚ))
    (cols : List Column) (hlen : dv.length = cols.length)
    (hval : ∀ i, i < dv.length → dv.getD i none = some (w i)) :
    exprClaimsM dv cols t = .ok (expectedClaimAt cols w t) :=
  exprClaimsAux_aligned w t dv hval cols 0 0 (by simpa using hlen)

/-- Cumulative analogue of `exprClaimsAux_aligned`. -/
theorem exprCumAux_aligned (w : ℕ → ℚ) (dv : List (Option ℚ))
    (hval : ∀ i, i < dv.length → dv.getD i none = some (w i)) :
    ∀ (rest : List Column) (c : ℕ) (acc : ℚ), dv.length = c + rest.length →
      exprCumAux dv rest c acc = .ok (expectedCumAux w rest c acc)
  | [], c, acc, _ => rfl
  | col :: rest, c, acc, hlen => by
      simp only [List.length_cons] at hlen
      have hc : c < dv.length := by omega
      rw [exprCumAux, if_pos hc, hval c hc, expectedCumAux]
      exact exprCumAux_aligned w dv hval rest (c + 1) _ (by omega)

/-- `exprCumM` on aligned, fully set values is the pure cumulative claim. -/
theorem exprCumM_aligned (w : ℕ → ℚ) (dv : List (Option ℚ))
    (cols : List Column) (hlen : dv.length = cols.length)
    (hval : ∀ i, i < dv.length → dv.getD i none = some (w i)) :
    exprCumM dv cols = .ok (expectedCumClaim cols w) :=
  exprCumAux_aligned w dv hval cols 0 0 (by simpa using hlen)

/-- `exceptMap` of an everywhere-successful body is the plain map. -/
theorem exceptMap_ok {α : Type} (f : ℕ → Except PyError α) (g : ℕ → α) :
    ∀ l : List ℕ, (∀ x ∈ l, f x = .ok (g x)) → exceptMap f l = .ok (l.map g)
  | [], _ => rfl
  | x :: xs, h => by
      rw [exceptMap, h x (by simp)]
      rw [exceptMap_ok f g xs (fun y hy => h y (by simp [hy]))]
      rfl

/-- Row `a` of `solvedVars` is the aligned, fully set value list of agent
`a`'s columns. -/
theorem solvedVars_getD (mp : MasterProblem) (w : ℕ → ℕ → ℚ) (a : ℕ)
    (ha : a < mp.agents.length) :
    (solvedVars mp w).getD a [] =
      ((mp.agents.getD a default).columns.enum.map (fun pc => some (w a pc.1))) := by
  unfold solvedVars
  rw [getD_enum_map mp.agents (fun i ag => ag.columns.enum.map (fun pc => some (w i pc.1))) a ha [] default]

/-- On a fully set, aligned state, the post-solve cross-agent claims list at
period `t` is the pure `expectedClaimsVec`. -/
theorem claimsVecM_solved (mp : MasterProblem) (w : ℕ → ℕ → ℚ)
    (d : List (Option ℚ)) (t : ℕ) (hnum : mp.num_agents ≤ mp.agents.length) :
    claimsVecM mp ⟨solvedVars mp w, d⟩ t = .ok (expectedClaimsVec mp w t) := by
  unfold claimsVecM expectedClaimsVec
  refine exceptMap_ok _ _ _ (fun a hmem => ?_)
  have ha : a < mp.agents.length := lt_of_lt_of_le (List.mem_range.mp hmem) hnum
  show exprClaimsM ((MPState.mk (solvedVars mp w) d).decision_vars.getD a []) _ t = _
  rw [show (MPState.mk (solvedVars mp w) d).decision_vars = solvedVars mp w from rfl,
    solvedVars_getD mp w a ha]
  refine exprClaimsM_aligned (w a) t _ _ (by simp) (fun i hi => ?_)
  have hi2 : i < (mp.agents.getD a default).columns.length := by simpa using hi
  exact getD_enum_map _ (fun j _ => some (w a j)) i hi2 none default

/-- Cumulative analogue of `claimsVecM_solved`. -/
theorem cumVecM_solved (mp : MasterProblem) (w : ℕ → ℕ → ℚ)
    (d : List (Option ℚ)) (hnum : mp.num_agents ≤ mp.agents.length) :
    cumVecM mp ⟨solvedVars mp w, d⟩ = .ok (expectedCumVec mp w) := by
  unfold cumVecM expectedCumVec
  refine exceptMap_ok _ _ _ (fun a hmem => ?_)
  have ha : a < mp.agents.length := lt_of_lt_of_le (List.mem_range.mp hmem) hnum
  show exprCumM ((MPState.mk (solvedVars mp w) d).decision_vars.getD a []) _ = _
  rw [show (MPState.mk (solvedVars mp w) d).decision_vars = solvedVars mp w from rfl,
    solvedVars_getD mp w a ha]
  refine exprCumM_aligned (w a) _ _ (by simp) (fun i hi => ?_)
  have hi2 : i < (mp.agents.getD a default).columns.length := by simpa using hi
  exact getD_enum_map _ (fun j _ => some (w a j)) i hi2 none default

/-- The timestep penalty loop with `fairness_type = "variance"` succeeds and
subtracts the weighted sum of the per-period variance penalties. -/
theorem penaltyLoop_variance (mp : MasterProblem) (v : ℕ → ℕ → ℚ)
    (htype : mp.fairness_type = "variance") :
    ∀ (l : List ℕ) (acc : ℚ),
      penaltyLoop mp v l acc =
        .ok (acc - mp.langrangian_weight *
          (l.map (fun t => variance_penalty (expectedClaimsVec mp v t))).sum)
  | [], acc => by simp [penaltyLoop]
  | t :: ts, acc => by
      rw [penaltyLoop, if_pos htype, penaltyLoop_variance mp v htype ts]
      congr 1
      simp
      ring

/-- `netRewardAux` accumulates the enumerated per-column net-value sum. -/
theorem netRewardAux_eq (ag : Agent) (v : ℕ → ℚ) :
    ∀ (cols : List Column) (c : ℕ) (acc : ℚ),
      netRewardAux ag v cols c acc =
        acc + ((cols.enumFrom c).map (fun pc => v pc.1 * netValue ag pc.2)).sum
  | [], c, acc => by simp [netRewardAux]
  | col :: rest, c, acc => by
      rw [netRewardAux, netRewardAux_eq ag v rest (c + 1)]
      simp [List.enumFrom]
      ring

/-- The source's net-reward accumulation equals the spec's "sum over all
(agent, column) pairs of variable × net value" formula. -/
theorem netRewardSum_eq_spec (mp : MasterProblem) (v : ℕ → ℕ → ℚ) :
    netRewardSum mp v = netRewardSpec mp v := by
  unfold netRewardSum netRewardSpec
  congr 1
  refine List.map_congr_left (fun pa _ => ?_)
  rw [netRewardAux_eq pa.2 (v pa.1) pa.2.columns 0 0]
  simp [List.enum, netValue]

/-- The objective `solve()` assembles, evaluated at any assignment, equals
the spec formula `total_expected_reward − langrangian_weight ×
fairness_penalty` with the penalty included exactly when
`langrangian_weight > 0` (for the implemented `fairness_type` and a
recognized scope). -/
theorem solveObjective_eq_spec (mp : MasterProblem) (v : ℕ → ℕ → ℚ)
    (htype : mp.fairness_type = "variance")
    (hscope : mp.fairness_scope = "timestep" ∨ mp.fairness_scope = "cumulative") :
    solveObjective mp v = .ok (objectiveSpec mp v) := by
  by_cases hw : mp.langrangian_weight > 0
  · rcases hscope with hts | hcum
    · rw [solveObjective, if_pos hw, if_pos hts, penaltyLoop_variance mp v htype]
      simp only [ok_bind]
      rw [objectiveSpec, if_pos hw, fairnessPenaltySpec, if_pos hts,
        netRewardSum_eq_spec]
      congr 1
      ring
    · have hne : ¬(("cumulative" : String) = "timestep") := by decide
      rw [solveObjective, if_pos hw, hcum, if_neg hne,
        if_pos (rfl : ("cumulative" : String) = "cumulative"), if_pos htype]
      simp only [pure_bind]
      rw [objectiveSpec, if_pos hw, fairnessPenaltySpec, hcum, if_neg hne,
        netRewardSum_eq_spec]
      congr 1
      ring
  · rw [solveObjective, if_neg hw]
    simp only [pure_bind]
    rw [objectiveSpec, if_neg hw, netRewardSum_eq_spec]
    congr 1
    ring

/-- Indexing into a mapped list below its length. -/
theorem getD_map_of_lt {α β : Type} (l : List α) (f : α → β) (i : ℕ)
    (hi : i < l.length) (d : β) (dα : α) :
    (l.map f).getD i d = f (l.getD i dα) := by
  rw [List.getD_eq_getElem?_getD, List.getElem?_map, List.getElem?_eq_getElem hi,
    List.getD_eq_getElem?_getD, List.getElem?_eq_getElem hi]
  rfl

/-- `exceptMap` fails immediately when its body fails on the head index. -/
theorem exceptMap_error_head {α : Type} (f : ℕ → Except PyError α) (e : PyError)
    (x : ℕ) (xs : List ℕ) (h : f x = .error e) :
    exceptMap f (x :: xs) = .error e := by
  rw [exceptMap, h]
  rfl

/-! ### Invariance under the tail agents' horizon fields -/

theorem withTailHorizons_agents (mp : MasterProblem) (f : ℕ → ℕ) :
    (withTailHorizons mp f).agents = setTailHorizons mp.agents f := rfl

theorem withTailHorizons_horizon (mp : MasterProblem) (f : ℕ → ℕ) :
    (withTailHorizons mp f).horizon = mp.horizon := rfl

theorem withTailHorizons_num_agents (mp : MasterProblem) (f : ℕ → ℕ) :
    (withTailHorizons mp f).num_agents = mp.num_agents := rfl

theorem withTailHorizons_weight (mp : MasterProblem) (f : ℕ → ℕ) :
    (withTailHorizons mp f).langrangian_weight = mp.langrangian_weight := rfl

theorem withTailHorizons_type (mp : MasterProblem) (f : ℕ → ℕ) :
    (withTailHorizons mp f).fairness_type = mp.fairness_type := rfl

theorem withTailHorizons_scope (mp : MasterProblem) (f : ℕ → ℕ) :
    (withTailHorizons mp f).fairness_scope = mp.fairness_scope := rfl

theorem setTailHorizons_length (l : List Agent) (f : ℕ → ℕ) :
    (setTailHorizons l f).length = l.length := by
  simp [setTailHorizons]

theorem setTailHorizons_getElem? (l : List Agent) (f : ℕ → ℕ) (i : ℕ) :
    (setTailHorizons l f)[i]? =
      l[i]?.map (fun ag => if i = 0 then ag else { ag with horizon := f i }) := by
  rw [setTailHorizons, List.getElem?_map, List.getElem?_enum]
  cases l[i]? <;> rfl

theorem setTailHorizons_columns (l : List Agent) (f : ℕ → ℕ) (i : ℕ) :
    ((setTailHorizons l f).getD i default).columns = (l.getD i default).columns := by
  rw [List.getD_eq_getElem?_getD, List.getD_eq_getElem?_getD, setTailHorizons_getElem?]
  cases h : l[i]? with
  | none => rfl
  | some ag => by_cases h0 : i = 0 <;> simp [h0]

theorem setTailHorizons_fcv (l : List Agent) (f : ℕ → ℕ) (i : ℕ) :
    ((setTailHorizons l f).getD i default).fixed_cost_vector =
      (l.getD i default).fixed_cost_vector := by
  rw [List.getD_eq_getElem?_getD, List.getD_eq_getElem?_getD, setTailHorizons_getElem?]
  cases h : l[i]? with
  | none => rfl
  | some ag => by_cases h0 : i = 0 <;> simp [h0]

theorem enum_map_eq_range_map {α β : Type} (l : List α) (g : ℕ × α → β) (d : α) :
    l.enum.map g = (List.range l.length).map (fun i => g (i, l.getD i d)) := by
  apply List.ext_getElem?
  intro i
  rw [List.getElem?_map, List.getElem?_enum, List.getElem?_map]
  by_cases h : i < l.length
  · rw [List.getElem?_range h, List.getElem?_eq_getElem h]
    simp [List.getD_eq_getElem?_getD, List.getElem?_eq_getElem h]
  · rw [List.getElem?_eq_none (le_of_not_lt h),
      List.getElem?_eq_none (by simpa using le_of_not_lt h)]
    rfl

theorem exceptMap_congr {α : Type} (f g : ℕ → Except PyError α) :
    ∀ l : List ℕ, (∀ x ∈ l, f x = g x) → exceptMap f l = exceptMap g l
  | [], _ => rfl
  | x :: xs, h => by
      rw [exceptMap, exceptMap, h x (by simp),
        exceptMap_congr f g xs (fun y hy => h y (by simp [hy]))]

theorem claimsVecM_withTail (mp : MasterProblem) (f : ℕ → ℕ) (st : MPState) (t : ℕ) :
    claimsVecM (withTailHorizons mp f) st t = claimsVecM mp st t := by
  rw [claimsVecM, claimsVecM, withTailHorizons_num_agents]
  refine exceptMap_congr _ _ _ (fun a _ => ?_)
  show exprClaimsM (st.decision_vars.getD a [])
    (((setTailHorizons mp.agents f).getD a default).columns) t = _
  rw [setTailHorizons_columns]

theorem cumVecM_withTail (mp : MasterProblem) (f : ℕ → ℕ) (st : MPState) :
    cumVecM (withTailHorizons mp f) st = cumVecM mp st := by
  rw [cumVecM, cumVecM, withTailHorizons_num_agents]
  refine exceptMap_congr _ _ _ (fun a _ => ?_)
  show exprCumM (st.decision_vars.getD a [])
    (((setTailHorizons mp.agents f).getD a default).columns) = _
  rw [setTailHorizons_columns]

theorem gradients_withTail (mp : MasterProblem) (f : ℕ → ℕ) (st : MPState) :
    compute_fairness_gradients (withTailHorizons mp f) st =
      compute_fairness_gradients mp st := by
  simp only [compute_fairness_gradients, withTailHorizons_scope, withTailHorizons_type,
    withTailHorizons_horizon, withTailHorizons_num_agents, claimsVecM_withTail,
    cumVecM_withTail]

theorem realized_withTail (mp : MasterProblem) (f : ℕ → ℕ) (st : MPState) :
    compute_realized_fairness_penalty (withTailHorizons mp f) st =
      compute_realized_fairness_penalty mp st := by
  simp only [compute_realized_fairness_penalty, withTailHorizons_scope,
    withTailHorizons_horizon, claimsVecM_withTail, cumVecM_withTail]

theorem expectedClaimsVec_withTail (mp : MasterProblem) (f : ℕ → ℕ)
    (v : ℕ → ℕ → ℚ) (t : ℕ) :
    expectedClaimsVec (withTailHorizons mp f) v t = expectedClaimsVec mp v t := by
  rw [expectedClaimsVec, expectedClaimsVec, withTailHorizons_num_agents]
  refine List.map_congr_left (fun a _ => ?_)
  show expectedClaimAt (((setTailHorizons mp.agents f).getD a default).columns) (v a) t = _
  rw [setTailHorizons_columns]

theorem expectedCumVec_withTail (mp : MasterProblem) (f : ℕ → ℕ) (v : ℕ → ℕ → ℚ) :
    expectedCumVec (withTailHorizons mp f) v = expectedCumVec mp v := by
  rw [expectedCumVec, expectedCumVec, withTailHorizons_num_agents]
  refine List.map_congr_left (fun a _ => ?_)
  show expectedCumClaim (((setTailHorizons mp.agents f).getD a default).columns) (v a) = _
  rw [setTailHorizons_columns]

theorem netRewardAux_congr (ag1 ag2 : Agent)
    (hfc : ag1.fixed_cost_vector = ag2.fixed_cost_vector) (v : ℕ → ℚ) :
    ∀ (cols : List Column) (c : ℕ) (acc : ℚ),
      netRewardAux ag1 v cols c acc = netRewardAux ag2 v cols c acc
  | [], _, _ => rfl
  | col :: rest, c, acc => by
      rw [netRewardAux, netRewardAux, netValue, netValue, hfc]
      exact netRewardAux_congr ag1 ag2 hfc v rest (c + 1) _

theorem netRewardSum_withTail (mp : MasterProblem) (f : ℕ → ℕ) (v : ℕ → ℕ → ℚ) :
    netRewardSum (withTailHorizons mp f) v = netRewardSum mp v := by
  rw [netRewardSum, netRewardSum, withTailHorizons_agents,
    enum_map_eq_range_map (setTailHorizons mp.agents f) _ default,
    enum_map_eq_range_map mp.agents _ default, setTailHorizons_length]
  congr 1
  refine List.map_congr_left (fun i _ => ?_)
  show netRewardAux ((setTailHorizons mp.agents f).getD i default) (v i)
    ((setTailHorizons mp.agents f).getD i default).columns 0 0 = _
  rw [setTailHorizons_columns]
  exact netRewardAux_congr _ _ (setTailHorizons_fcv mp.agents f i) (v i) _ 0 0

theorem penaltyLoop_withTail (mp : MasterProblem) (f : ℕ → ℕ) (v : ℕ → ℕ → ℚ) :
    ∀ (l : List ℕ) (acc : ℚ),
      penaltyLoop (withTailHorizons mp f) v l acc = penaltyLoop mp v l acc
  | [], _ => rfl
  | t :: ts, acc => by
      rw [penaltyLoop, penaltyLoop, withTailHorizons_type, withTailHorizons_weight,
        expectedClaimsVec_withTail]
      by_cases h : mp.fairness_type = "variance"
      · rw [if_pos h, if_pos h, penaltyLoop_withTail mp f v ts _]
      · rw [if_neg h, if_neg h]

theorem solveObjective_withTail (mp : MasterProblem) (f : ℕ → ℕ) (v : ℕ → ℕ → ℚ) :
    solveObjective (withTailHorizons mp f) v = solveObjective mp v := by
  simp only [solveObjective, withTailHorizons_weight, withTailHorizons_scope,
    withTailHorizons_type, withTailHorizons_horizon, penaltyLoop_withTail,
    expectedCumVec_withTail, netRewardSum_withTail]

theorem solveState_withTail (mp : MasterProblem) (f : ℕ → ℕ) (out : SolverOutput) :
    solveState (withTailHorizons mp f) out = solveState mp out := by
  rw [solveState, solveState, withTailHorizons_horizon, withTailHorizons_agents]
  congr 1
  rw [enum_map_eq_range_map (setTailHorizons mp.agents f) _ default,
    enum_map_eq_range_map mp.agents _ default, setTailHorizons_length]
  refine List.map_congr_left (fun i _ => ?_)
  show ((setTailHorizons mp.agents f).getD i default).columns.enum.map
    (fun pc => out.value i pc.1) = _
  rw [setTailHorizons_columns]

theorem solve_withTail (mp : MasterProblem) (f : ℕ → ℕ) (out : SolverOutput) :
    (withTailHorizons mp f).solve out = mp.solve out := by
  simp only [MasterProblem.solve, solveState_withTail, solveObjective_withTail,
    gradients_withTail, realized_withTail, withTailHorizons_weight]

/-! ### The claims -/

/-- C1: For every call to `solve()`, the objective handed to the solver is
the maximization of the sum over all (agent, column) pairs of
decision_variable × (sum(reward) − sum(fixed_cost_vector * claims)), minus
`langrangian_weight × fairness_penalty`, and the fairness-penalty term is
included in the objective if and only if `langrangian_weight > 0` (for the
implemented `fairness_type = "variance"` and a recognized scope, where the
objective assembly succeeds). -/
theorem C1_objective_matches_spec (mp : MasterProblem) (v : ℕ → ℕ → ℚ)
    (htype : mp.fairness_type = "variance")
    (hscope : mp.fairness_scope = "timestep" ∨ mp.fairness_scope = "cumulative") :
    solveObjective mp v = .ok (objectiveSpec mp v) :=
  solveObjective_eq_spec mp v htype hscope

/-- Witness for C1 at Scenario B and the all-ones assignment. -/
theorem C1_objective_matches_spec_witness :
    solveObjective scenarioB (fun _ _ => 1) = .ok (objectiveSpec scenarioB (fun _ _ => 1)) :=
  C1_objective_matches_spec scenarioB (fun _ _ => 1) rfl (Or.inl rfl)

/-- C2: For every agent (row) with at least one column, the returned
distribution row has the agent's column count as length; it is the raw
solved-value vector (`0.0` for unset values) normalized by its sum when that
sum is nonzero, and uniform when the raw sum is exactly zero; it is
nonnegative (the variables are declared nonnegative, so the solved values
are assumed `≥ 0`) and sums to `1`. -/
theorem C2_decision_distribution (st : MPState) (i : ℕ)
    (hi : i < st.decision_vars.length)
    (hne : st.decision_vars.getD i [] ≠ [])
    (hnn : ∀ o ∈ st.decision_vars.getD i [], 0 ≤ o.getD 0) :
    ((get_decision_distribution st).getD i []).length = (st.decision_vars.getD i []).length ∧
    (∀ x ∈ (get_decision_distribution st).getD i [], 0 ≤ x) ∧
    ((get_decision_distribution st).getD i []).sum = 1 ∧
    (((st.decision_vars.getD i []).map (fun o => o.getD 0)).sum = 0 →
      (get_decision_distribution st).getD i [] =
        List.replicate (st.decision_vars.getD i []).length
          (1 / ((st.decision_vars.getD i []).length : ℚ))) ∧
    (((st.decision_vars.getD i []).map (fun o => o.getD 0)).sum ≠ 0 →
      (get_decision_distribution st).getD i [] =
        ((st.decision_vars.getD i []).map (fun o => o.getD 0)).map
          (fun x => x / ((st.decision_vars.getD i []).map (fun o => o.getD 0)).sum)) := by
  have hd : (get_decision_distribution st).getD i [] =
      (if ((st.decision_vars.getD i []).map (fun o => o.getD 0)).sum = 0 then
        ((st.decision_vars.getD i []).map (fun o => o.getD 0)).map
          (fun _ => 1 / ((((st.decision_vars.getD i []).map (fun o => o.getD 0)).length : ℚ)))
      else
        ((st.decision_vars.getD i []).map (fun o => o.getD 0)).map
          (fun w => w / ((st.decision_vars.getD i []).map (fun o => o.getD 0)).sum)) := by
    rw [get_decision_distribution, getD_map_of_lt _ _ i hi [] []]
  set row := st.decision_vars.getD i [] with hrowdef
  set raw := row.map (fun o => o.getD 0) with hrawdef
  have hlen : raw.length = row.length := by rw [hrawdef]; simp
  have hpos : 0 < row.length := List.length_pos.mpr hne
  have hcast : ((row.length : ℚ)) ≠ 0 := by
    exact_mod_cast Nat.pos_iff_ne_zero.mp hpos
  have hnn2 : ∀ x ∈ raw, 0 ≤ x := by
    intro x hx
    rw [hrawdef] at hx
    obtain ⟨o, ho, rfl⟩ := List.mem_map.mp hx
    exact hnn o ho
  by_cases hz : raw.sum = 0
  · have hd2 : (get_decision_distribution st).getD i [] =
        List.replicate row.length (1 / (row.length : ℚ)) := by
      rw [hd, if_pos hz, List.map_const', hlen]
    refine ⟨?_, ?_, ?_, fun _ => hd2, fun h => absurd hz h⟩
    · rw [hd2]; simp
    · intro x hx
      rw [hd2] at hx
      rw [List.eq_of_mem_replicate hx]
      positivity
    · rw [hd2, List.sum_replicate, nsmul_eq_mul, mul_one_div_cancel hcast]
  · have hS : 0 < raw.sum := lt_of_le_of_ne (List.sum_nonneg hnn2) (Ne.symm hz)
    have hd2 : (get_decision_distribution st).getD i [] =
        raw.map (fun w => w / raw.sum) := by
      rw [hd, if_neg hz]
    refine ⟨?_, ?_, ?_, fun h => absurd h hz, fun _ => hd2⟩
    · rw [hd2]; simp [hlen]
    · intro x hx
      rw [hd2] at hx
      obtain ⟨w, hw, rfl⟩ := List.mem_map.mp hx
      exact div_nonneg (hnn2 w hw) (le_of_lt hS)
    · rw [hd2]
      have : (raw.map (fun w => w / raw.sum)).sum = raw.sum / raw.sum := by
        simp only [div_eq_mul_inv]
        rw [show (fun w : ℚ => w * (raw.sum)⁻¹) = (fun w : ℚ => id w * (raw.sum)⁻¹) from rfl,
          List.sum_map_mul_right, List.map_id]
      rw [this, div_self hz]

/-- Witness for C2: a two-column row with set values `1/2` and `3/2`. -/
theorem C2_decision_distribution_witness :
    ((get_decision_distribution ⟨[[some (1/2), some (3/2)]], []⟩).getD 0 []).sum = 1 := by
  refine (C2_decision_distribution ⟨[[some (1/2), some (3/2)]], []⟩ 0 (by simp)
    (by simp) ?_).2.2.1
  intro o ho
  simp at ho
  rcases ho with h | h <;> rw [h] <;> norm_num

/-- C3: For every `fairness_scope` outside `{timestep, cumulative}`, each of
`solve()`, `compute_fairness_gradients()` and
`compute_realized_fairness_penalty()` raises a `ValueError`, each at its own
validation site (the latter two raise regardless of any instance state, and
`solve()` raises for every solver output). -/
theorem C3_unknown_scope_raises (mp : MasterProblem)
    (h1 : mp.fairness_scope ≠ "timestep") (h2 : mp.fairness_scope ≠ "cumulative") :
    (∀ out : SolverOutput,
      mp.solve out = .error (.valueError "Unknown fairness_scope option")) ∧
    (∀ st : MPState,
      compute_fairness_gradients mp st = .error (.valueError "Unknown fairness_scope option")) ∧
    (∀ st : MPState,
      compute_realized_fairness_penalty mp st = .error (.valueError "Unknown fairness_scope")) := by
  have hg : ∀ st : MPState,
      compute_fairness_gradients mp st = .error (.valueError "Unknown fairness_scope option") := by
    intro st
    rw [compute_fairness_gradients, if_neg h1, if_neg h2]
  refine ⟨?_, hg, ?_⟩
  · intro out
    rw [MasterProblem.solve]
    by_cases hw : mp.langrangian_weight > 0
    · rw [solveObjective, if_pos hw, if_neg h1, if_neg h2]
      rfl
    · rw [solveObjective, if_neg hw]
      simp only [pure_bind, ok_bind, hg, error_bind]
  · intro st
    rw [compute_realized_fairness_penalty, if_neg h1, if_neg h2]

/-- Witness for C3 at the scope `"episode"` (the one the source's comment at
line 16 mentions but never implements). -/
theorem C3_unknown_scope_raises_witness :
    compute_realized_fairness_penalty { scenarioB with fairness_scope := "episode" } initState =
      .error (.valueError "Unknown fairness_scope") :=
  (C3_unknown_scope_raises { scenarioB with fairness_scope := "episode" }
    (by simp) (by simp)).2.2 initState

/-- C5 counterexample: on a freshly constructed instance (state as left by
`__init__`), `get_dual_prices()` returns the empty array, not `horizon = 1`
floats, so the claim fails "for every instance": it holds only after
`solve()` has built the resource constraints. -/
theorem C5_fresh_instance_counterexample :
    mkMasterProblem [agentOne, agentZero] 1 5 "variance" "timestep" = .ok scenarioB ∧
    scenarioB.horizon = 1 ∧
    get_dual_prices initState = [] :=
  ⟨rfl, rfl, rfl⟩

/-- C5 (amended): after `solve()`, `get_dual_prices()` returns exactly
`horizon` floats, one per period in order, each equal to that period's
constraint dual when the solver exposes one and `0.0` otherwise. -/
theorem C5_dual_prices (mp : MasterProblem) (out : SolverOutput) :
    (get_dual_prices (solveState mp out)).length = mp.horizon ∧
    ∀ t, t < mp.horizon →
      (get_dual_prices (solveState mp out)).getD t 0 = (out.dual t).getD 0 := by
  constructor
  · rw [get_dual_prices, solveState]
    simp
  · intro t ht
    rw [get_dual_prices, solveState]
    show (((List.range mp.horizon).map out.dual).map (fun d => d.getD 0)).getD t 0 = _
    rw [List.map_map, getD_range_map _ ht]
    rfl

/-- Witness for C5 at Scenario B and a dual-less solver output. -/
theorem C5_dual_prices_witness :
    (get_dual_prices (solveState scenarioB infeasibleOut)).getD 0 0 =
      ((infeasibleOut.dual 0).getD 0) :=
  (C5_dual_prices scenarioB infeasibleOut).2 0 (by decide)

/-- C6: After a successful solve (all variable values set), cumulative scope
gradients are, per agent, the constant length-`horizon` vector holding that
agent's entry of the gradient primitive applied to the cumulative expected
claims; timestep-scope gradients have, per agent, the entry at period `t`
equal to that agent's component of the gradient primitive applied directly
to the cross-agent expected claims at `t`. -/
theorem C6_fairness_gradients (mp : MasterProblem) (w : ℕ → ℕ → ℚ)
    (d : List (Option ℚ)) (htype : mp.fairness_type = "variance")
    (hscope : mp.fairness_scope = "timestep" ∨ mp.fairness_scope = "cumulative")
    (hnum : mp.num_agents ≤ mp.agents.length) :
    compute_fairness_gradients mp ⟨solvedVars mp w, d⟩ =
      .ok ((List.range mp.num_agents).map (fun a =>
        if mp.fairness_scope = "cumulative" then
          List.replicate mp.horizon
            ((variance_penalty_gradient (expectedCumVec mp w)).getD a 0)
        else
          (List.range mp.horizon).map (fun t =>
            (variance_penalty_gradient (expectedClaimsVec mp w t)).getD a 0))) := by
  rcases hscope with hts | hcum
  · rw [compute_fairness_gradients, if_pos hts]
    have hmap := exceptMap_ok
      (fun t => do
        let expected_claims_t ← claimsVecM mp ⟨solvedVars mp w, d⟩ t
        if mp.fairness_type = "variance" then
          pure (variance_penalty_gradient expected_claims_t)
        else
          (.error (.notImplementedError "Only variance fairness implemented in gradient") :
            Except PyError (List ℚ)))
      (fun t => variance_penalty_gradient (expectedClaimsVec mp w t))
      (List.range mp.horizon)
      (fun t _ => by
        simp only [claimsVecM_solved mp w d t hnum, ok_bind, if_pos htype]
        rfl)
    rw [hmap]
    simp only [ok_bind]
    congr 1
    refine List.map_congr_left (fun a _ => ?_)
    rw [if_neg (by rw [hts]; decide)]
    refine List.map_congr_left (fun t htmem => ?_)
    rw [getD_range_map _ (List.mem_range.mp htmem)]
  · rw [compute_fairness_gradients, if_neg (by rw [hcum]; decide), if_pos hcum,
      cumVecM_solved mp w d hnum]
    simp only [ok_bind, if_pos htype]
    show Except.ok _ = _
    congr 1
    refine List.map_congr_left (fun a _ => ?_)
    rw [if_pos hcum]

/-- Witness for C6 at Scenario B with the all-ones solved values. -/
theorem C6_fairness_gradients_witness :
    compute_fairness_gradients scenarioB ⟨solvedVars scenarioB (fun _ _ => 1), []⟩ =
      .ok ((List.range scenarioB.num_agents).map (fun a =>
        if scenarioB.fairness_scope = "cumulative" then
          List.replicate scenarioB.horizon
            ((variance_penalty_gradient (expectedCumVec scenarioB (fun _ _ => 1))).getD a 0)
        else
          (List.range scenarioB.horizon).map (fun t =>
            (variance_penalty_gradient
              (expectedClaimsVec scenarioB (fun _ _ => 1) t)).getD a 0))) :=
  C6_fairness_gradients scenarioB (fun _ _ => 1) [] rfl (Or.inl rfl) (by decide)

/-- C4 counterexample: with `fairness_type = "gini"` (timestep scope, solved
values set), `compute_fairness_gradients()` raises `NotImplementedError` as
claimed, but `compute_realized_fairness_penalty()` performs no
`fairness_type` check and happily returns the variance value `1/4` instead
of raising. -/
theorem C4_realized_penalty_counterexample :
    compute_fairness_gradients scenarioGini (solveState scenarioGini outOnes) =
      .error (.notImplementedError "Only variance fairness implemented in gradient") ∧
    compute_realized_fairness_penalty scenarioGini (solveState scenarioGini outOnes) =
      .ok (1 / 4) := by
  constructor
  · simp [compute_fairness_gradients, claimsVecM, exceptMap, exprClaimsM, exprClaimsAux,
      solveState, scenarioGini, scenarioB, agentOne, agentZero, outOnes,
      List.enum, List.range_succ]
  · simp [compute_realized_fairness_penalty, claimsVecM, exceptMap, exprClaimsM,
      exprClaimsAux, solveState, scenarioGini, scenarioB, agentOne, agentZero, outOnes,
      variance_penalty_numpy, List.enum, List.range_succ]
    norm_num

/-- C4 (amended): for every `fairness_type` other than `"variance"` (with a
recognized scope, positive horizon, and solved values set),
`compute_fairness_gradients()` raises `NotImplementedError`, while
`compute_realized_fairness_penalty()` performs no `fairness_type` check and
returns a value. -/
theorem C4_nonvariance_type (mp : MasterProblem) (w : ℕ → ℕ → ℚ)
    (d : List (Option ℚ)) (htype : mp.fairness_type ≠ "variance")
    (hscope : mp.fairness_scope = "timestep" ∨ mp.fairness_scope = "cumulative")
    (hh : 0 < mp.horizon) (hnum : mp.num_agents ≤ mp.agents.length) :
    compute_fairness_gradients mp ⟨solvedVars mp w, d⟩ =
      .error (.notImplementedError "Only variance fairness implemented in gradient") ∧
    ∃ q, compute_realized_fairness_penalty mp ⟨solvedVars mp w, d⟩ = .ok q := by
  constructor
  · rcases hscope with hts | hcum
    · have hful : exceptMap (fun t => do
          let expected_claims_t ← claimsVecM mp ⟨solvedVars mp w, d⟩ t
          if mp.fairness_type = "variance" then
            pure (variance_penalty_gradient expected_claims_t)
          else
            (.error (.notImplementedError "Only variance fairness implemented in gradient") :
              Except PyError (List ℚ)))
          (List.range mp.horizon) =
          .error (.notImplementedError "Only variance fairness implemented in gradient") := by
        obtain ⟨k, hk⟩ : ∃ k, mp.horizon = k + 1 := ⟨mp.horizon - 1, by omega⟩
        rw [hk, List.range_succ_eq_map]
        exact exceptMap_error_head _ _ _ _
          (by simp only [claimsVecM_solved mp w d 0 hnum, ok_bind, if_neg htype])
      rw [compute_fairness_gradients, if_pos hts, hful]
      rfl
    · rw [compute_fairness_gradients, if_neg (by rw [hcum]; decide), if_pos hcum,
        cumVecM_solved mp w d hnum]
      simp only [ok_bind, if_neg htype]
  · rcases hscope with hts | hcum
    · have h1 : compute_realized_fairness_penalty mp ⟨solvedVars mp w, d⟩ =
          .ok (((List.range mp.horizon).map
            (fun t => variance_penalty_numpy (expectedClaimsVec mp w t))).sum) := by
        rw [compute_realized_fairness_penalty, if_pos hts,
          exceptMap_ok _ (fun t => variance_penalty_numpy (expectedClaimsVec mp w t)) _
            (fun t _ => by simp only [claimsVecM_solved mp w d t hnum, ok_bind]; rfl)]
        rfl
      exact ⟨_, h1⟩
    · have h1 : compute_realized_fairness_penalty mp ⟨solvedVars mp w, d⟩ =
          .ok (variance_penalty_numpy (expectedCumVec mp w)) := by
        rw [compute_realized_fairness_penalty, if_neg (by rw [hcum]; decide), if_pos hcum,
          cumVecM_solved mp w d hnum]
        rfl
      exact ⟨_, h1⟩

/-- Witness for the amended C4 at Scenario B with `fairness_type = "gini"`. -/
theorem C4_nonvariance_type_witness :
    compute_fairness_gradients scenarioGini ⟨solvedVars scenarioGini (fun _ _ => 1), []⟩ =
      .error (.notImplementedError "Only variance fairness implemented in gradient") :=
  (C4_nonvariance_type scenarioGini (fun _ _ => 1) [] (by simp [scenarioGini, scenarioB])
    (Or.inl rfl) (by decide) (by decide)).1

/-- C7: In Scenario B, for any solver output that is a feasible, exact
solution (the convex-combination constraints force both weights to 1),
`solve()` returns objective value `2 − 5 × variance([1, 0])`, distributions
`[1.0]` for each agent, and `fairness_impact = 5 × variance([1, 0])`
exactly. -/
theorem C7_scenarioB (out : SolverOutput) (x y : ℚ)
    (hvx : out.value 0 0 = some x) (hvy : out.value 1 0 = some y)
    (hfeas : Feasible scenarioB (fun a c => (out.value a c).getD 0))
    (hobj : out.objValue =
      some (objectiveSpec scenarioB (fun a c => (out.value a c).getD 0))) :
    scenarioB.solve out =
      .ok (some (2 - 5 * variance_penalty_numpy [1, 0]), [[1], [1]],
        5 * variance_penalty_numpy [1, 0]) := by
  obtain ⟨-, hsum, -⟩ := hfeas
  have h0 := hsum 0 (by decide)
  have h1 := hsum 1 (by decide)
  simp [scenarioB, agentOne, agentZero, List.range_succ, hvx] at h0
  simp [scenarioB, agentOne, agentZero, List.range_succ, hvy] at h1
  have hx : out.value 0 0 = some 1 := by rw [hvx, h0]
  have hy : out.value 1 0 = some 1 := by rw [hvy, h1]
  have hobj2 : out.objValue = some (2 - 5 * variance_penalty_numpy [1, 0]) := by
    rw [hobj]
    congr 1
    norm_num [objectiveSpec, netRewardSpec, fairnessPenaltySpec, expectedClaimsVec,
      expectedClaimAt, expectedClaimAux, expectedCumVec, scenarioB, agentOne, agentZero,
      netValue, variance_penalty, variance_penalty_numpy, List.enum, List.range_succ, hx, hy]
  simp [MasterProblem.solve, solveState, scenarioB, agentOne, agentZero, hx, hy, hobj2,
    compute_fairness_gradients, compute_realized_fairness_penalty, claimsVecM, cumVecM,
    exceptMap, exprClaimsM, exprClaimsAux, get_decision_distribution, solveObjective,
    penaltyLoop, variance_penalty, variance_penalty_numpy, variance_penalty_gradient,
    expectedClaimsVec, expectedClaimAt, expectedClaimAux, netRewardSum, netRewardAux,
    netValue, List.enum, List.range_succ]

/-- Witness for C7 at the exact Scenario B solver output. -/
theorem C7_scenarioB_witness :
    scenarioB.solve outB =
      .ok (some (2 - 5 * variance_penalty_numpy [1, 0]), [[1], [1]],
        5 * variance_penalty_numpy [1, 0]) := by
  refine C7_scenarioB outB 1 1 rfl rfl ⟨?_, ?_, ?_⟩ ?_
  · simp [scenarioB, agentOne, agentZero, outB]
  · intro a ha
    simp only [scenarioB, List.mem_range] at ha
    interval_cases a <;>
      simp [scenarioB, agentOne, agentZero, outB, List.range_succ]
  · intro t ht
    simp only [scenarioB, List.mem_range] at ht
    interval_cases t
    simp [scenarioB, agentOne, agentZero, outB, expectedTotalClaimsAt, expectedClaimAt,
      expectedClaimAux, List.enum, List.range_succ]
  · show outB.objValue = _
    rw [show outB.objValue = some (3/4) from rfl]
    congr 1
    norm_num [objectiveSpec, netRewardSpec, fairnessPenaltySpec, expectedClaimsVec,
      expectedClaimAt, expectedClaimAux, scenarioB, agentOne, agentZero, outB,
      netValue, variance_penalty, List.enum, List.range_succ]

/-- Scenario A's LP is infeasible: with one column per agent, the
convex-combination constraints force both weights to 1, and the period-0
capacity constraint then reads `2 ≤ 1`. -/
theorem scenarioA_infeasible : ∀ v : ℕ → ℕ → ℚ, ¬ Feasible scenarioA v := by
  intro v hv
  obtain ⟨hpos, hsum, hcap⟩ := hv
  have h0 := hsum 0 (by decide)
  have h1 := hsum 1 (by decide)
  have hc := hcap 0 (by decide)
  simp [scenarioA, agentOne, List.range_succ] at h0 h1
  simp [scenarioA, agentOne, expectedTotalClaimsAt, expectedClaimAt, expectedClaimAux,
    List.enum, List.range_succ, h0, h1] at hc
  norm_num at hc

/-- C8 counterexample: the distribution the claim expects (`[1.0]` per
agent, i.e. the all-ones assignment) violates Scenario A's capacity
constraint, and on the resulting infeasible solve — where the solver leaves
every variable value unset — `solve()` raises a `TypeError` instead of
returning objective value `2.0`. -/
theorem C8_scenarioA_counterexample :
    ¬ Feasible scenarioA (fun _ _ => 1) ∧
    scenarioA.solve infeasibleOut = .error .typeError := by
  constructor
  · exact scenarioA_infeasible (fun _ _ => 1)
  · simp [MasterProblem.solve, solveState, scenarioA, agentOne, infeasibleOut,
      compute_fairness_gradients, compute_realized_fairness_penalty, claimsVecM, cumVecM,
      exceptMap, exprClaimsM, exprClaimsAux, get_decision_distribution, solveObjective,
      penaltyLoop, variance_penalty, variance_penalty_numpy, variance_penalty_gradient,
      expectedClaimsVec, expectedClaimAt, expectedClaimAux, netRewardSum, netRewardAux,
      netValue, List.enum, List.range_succ]

/-- C8 (amended): with the capacity raised to 2 — the smallest change making
Scenario A feasible — any feasible, exact solver output yields objective
value `2.0`, distribution `[1.0]` per agent, and zero fairness impact. -/
theorem C8_scenarioA_capacity2 (out : SolverOutput) (x y : ℚ)
    (hvx : out.value 0 0 = some x) (hvy : out.value 1 0 = some y)
    (hfeas : Feasible scenarioA2 (fun a c => (out.value a c).getD 0))
    (hobj : out.objValue =
      some (objectiveSpec scenarioA2 (fun a c => (out.value a c).getD 0))) :
    scenarioA2.solve out = .ok (some 2, [[1], [1]], 0) := by
  obtain ⟨-, hsum, -⟩ := hfeas
  have h0 := hsum 0 (by decide)
  have h1 := hsum 1 (by decide)
  simp [scenarioA2, agentOne, List.range_succ, hvx] at h0
  simp [scenarioA2, agentOne, List.range_succ, hvy] at h1
  have hx : out.value 0 0 = some 1 := by rw [hvx, h0]
  have hy : out.value 1 0 = some 1 := by rw [hvy, h1]
  have hobj2 : out.objValue = some 2 := by
    rw [hobj]
    congr 1
    norm_num [objectiveSpec, netRewardSpec, fairnessPenaltySpec, expectedClaimsVec,
      expectedClaimAt, expectedClaimAux, expectedCumVec, scenarioA2, agentOne,
      netValue, variance_penalty, List.enum, List.range_succ, hx, hy]
  simp [MasterProblem.solve, solveState, scenarioA2, agentOne, hx, hy, hobj2,
    compute_fairness_gradients, compute_realized_fairness_penalty, claimsVecM, cumVecM,
    exceptMap, exprClaimsM, exprClaimsAux, get_decision_distribution, solveObjective,
    penaltyLoop, variance_penalty, variance_penalty_numpy, variance_penalty_gradient,
    expectedClaimsVec, expectedClaimAt, expectedClaimAux, netRewardSum, netRewardAux,
    netValue, List.enum, List.range_succ]

/-- Witness for the amended C8 at the exact capacity-2 solver output. -/
theorem C8_scenarioA_capacity2_witness :
    scenarioA2.solve outA2 = .ok (some 2, [[1], [1]], 0) := by
  refine C8_scenarioA_capacity2 outA2 1 1 rfl rfl ⟨?_, ?_, ?_⟩ ?_
  · simp [scenarioA2, agentOne, outA2]
  · intro a ha
    simp only [scenarioA2, List.mem_range] at ha
    interval_cases a <;>
      simp [scenarioA2, agentOne, outA2, List.range_succ]
  · intro t ht
    simp only [scenarioA2, List.mem_range] at ht
    interval_cases t
    simp [scenarioA2, agentOne, outA2, expectedTotalClaimsAt, expectedClaimAt,
      expectedClaimAux, List.enum, List.range_succ]
    norm_num
  · show outA2.objValue = _
    rw [show outA2.objValue = some 2 from rfl]
    congr 1
    norm_num [objectiveSpec, netRewardSpec, scenarioA2, agentOne, outA2,
      netValue, List.enum, List.range_succ]

/-- C9 counterexample: on Scenario B, a solver output with every variable
value unset (as cvxpy leaves them on an infeasible/unbounded/error status)
makes `solve()` raise a `TypeError` in its post-solve gradient pass, so the
failure does not surface through the returned triple — no triple is
returned at all. -/
theorem C9_solver_failure_counterexample :
    scenarioB.solve infeasibleOut = .error .typeError := by
  simp [MasterProblem.solve, solveState, scenarioB, agentOne, agentZero, infeasibleOut,
    compute_fairness_gradients, compute_realized_fairness_penalty, claimsVecM, cumVecM,
    exceptMap, exprClaimsM, exprClaimsAux, get_decision_distribution, solveObjective,
    penaltyLoop, variance_penalty, variance_penalty_numpy, variance_penalty_gradient,
    expectedClaimsVec, expectedClaimAt, expectedClaimAux, netRewardSum, netRewardAux,
    netValue, List.enum, List.range_succ]

/-- C9 (amended): `solve()` contains no exception handling or retry, but
whenever the solver leaves the variable values unset (infeasible, unbounded,
or error status) and there is at least one agent with at least one column,
`solve()` raises a `TypeError` while computing fairness gradients, instead
of returning its `(objective value, distributions, fairness_impact)`
triple. -/
theorem C9_unset_values_raise (mp : MasterProblem) (out : SolverOutput)
    (hall : ∀ a c, out.value a c = none)
    (htype : mp.fairness_type = "variance")
    (hscope : mp.fairness_scope = "timestep" ∨ mp.fairness_scope = "cumulative")
    (hh : 0 < mp.horizon) (hn : 0 < mp.num_agents) (ha : 0 < mp.agents.length)
    (hcols : (mp.agents.getD 0 default).columns ≠ []) :
    mp.solve out = .error .typeError := by
  have hv := solveObjective_eq_spec mp (fun a c => (out.value a c).getD 0) htype hscope
  obtain ⟨col, rest, hcr⟩ := List.exists_cons_of_ne_nil hcols
  have hdv0 : (solveState mp out).decision_vars.getD 0 [] =
      (mp.agents.getD 0 default).columns.enum.map (fun pc => out.value 0 pc.1) := by
    show (mp.agents.enum.map
      (fun pa => pa.2.columns.enum.map (fun pc => out.value pa.1 pc.1))).getD 0 [] = _
    rw [getD_enum_map mp.agents
      (fun i ag => ag.columns.enum.map (fun pc => out.value i pc.1)) 0 ha [] default]
  have hexpr : ∀ t, exprClaimsM ((solveState mp out).decision_vars.getD 0 [])
      ((mp.agents.getD 0 default).columns) t = .error .typeError := by
    intro t
    rw [hdv0, hcr]
    simp [exprClaimsM, exprClaimsAux, List.enum, List.enumFrom, hall]
  have hexprC : exprCumM ((solveState mp out).decision_vars.getD 0 [])
      ((mp.agents.getD 0 default).columns) = .error .typeError := by
    rw [hdv0, hcr]
    simp [exprCumM, exprCumAux, List.enum, List.enumFrom, hall]
  have hclaims : ∀ t, claimsVecM mp (solveState mp out) t = .error .typeError := by
    intro t
    rw [claimsVecM]
    obtain ⟨m, hm⟩ : ∃ m, mp.num_agents = m + 1 := ⟨mp.num_agents - 1, by omega⟩
    rw [hm, List.range_succ_eq_map]
    exact exceptMap_error_head _ _ _ _ (hexpr t)
  have hcumv : cumVecM mp (solveState mp out) = .error .typeError := by
    rw [cumVecM]
    obtain ⟨m, hm⟩ : ∃ m, mp.num_agents = m + 1 := ⟨mp.num_agents - 1, by omega⟩
    rw [hm, List.range_succ_eq_map]
    exact exceptMap_error_head _ _ _ _ hexprC
  have hgrad : compute_fairness_gradients mp (solveState mp out) = .error .typeError := by
    rcases hscope with hts | hcum
    · rw [compute_fairness_gradients, if_pos hts]
      have hful : exceptMap (fun t => do
          let expected_claims_t ← claimsVecM mp (solveState mp out) t
          if mp.fairness_type = "variance" then
            pure (variance_penalty_gradient expected_claims_t)
          else
            (.error (.notImplementedError "Only variance fairness implemented in gradient") :
              Except PyError (List ℚ)))
          (List.range mp.horizon) = .error .typeError := by
        obtain ⟨k, hk⟩ : ∃ k, mp.horizon = k + 1 := ⟨mp.horizon - 1, by omega⟩
        rw [hk, List.range_succ_eq_map]
        exact exceptMap_error_head _ _ _ _ (by simp only [hclaims 0, error_bind])
      rw [hful]
      rfl
    · rw [compute_fairness_gradients, if_neg (by rw [hcum]; decide), if_pos hcum, hcumv]
      rfl
  simp only [MasterProblem.solve, hv, ok_bind, hgrad, error_bind]

/-- Witness for the amended C9 at the capacity-2 Scenario A and the
all-unset solver output. -/
theorem C9_unset_values_raise_witness :
    scenarioA2.solve infeasibleOut = .error .typeError :=
  C9_unset_values_raise scenarioA2 infeasibleOut (fun _ _ => rfl) rfl (Or.inl rfl)
    (by decide) (by decide) (by decide) (by decide)

/-- C10: Constructing a `MasterProblem` on an empty agents list fails with
`IndexError` (the constructor indexes `agents[0]`); on a non-empty list the
stored `horizon` is exactly the first agent's `horizon`; and the `horizon`
fields of the other agents are never read: replacing them by arbitrary
values through `withTailHorizons` changes the result of no operation
(`get_dual_prices` and `get_decision_distribution` read only the instance
state, so they cannot depend on them either). -/
theorem C10_horizon_from_first_agent (a : Agent) (rest : List Agent) (rc lw : ℚ)
    (ty sc : String) (f : ℕ → ℕ) (mp : MasterProblem) (st : MPState)
    (out : SolverOutput) :
    mkMasterProblem [] rc lw ty sc = .error .indexError ∧
    mkMasterProblem (a :: rest) rc lw ty sc =
      .ok { agents := a :: rest, horizon := a.horizon, num_agents := rest.length + 1,
            resource_capacity := rc, langrangian_weight := lw,
            fairness_type := ty, fairness_scope := sc } ∧
    (withTailHorizons mp f).solve out = mp.solve out ∧
    compute_fairness_gradients (withTailHorizons mp f) st =
      compute_fairness_gradients mp st ∧
    compute_realized_fairness_penalty (withTailHorizons mp f) st =
      compute_realized_fairness_penalty mp st :=
  ⟨rfl, rfl, solve_withTail mp f out, gradients_withTail mp f st,
    realized_withTail mp f st⟩

end AlwaysSafe
